import Mathlib

/-!
Verification development for the IISPT/IILE rendering core of pbrt-v3-IILE.

The C++ source is shallowly embedded:

* `Spectrum` values are modelled as exact rationals (one channel suffices:
  every operation the embedded code performs on spectra is channel-wise
  linear arithmetic, and `IsBlack` is the zero test);
* C++ `int` arithmetic on non-negative quantities is modelled with `Nat`
  (`/` is C++ integer division on non-negative operands);
* the floating-point trigonometry of the hemispheric camera is modelled
  over the exact reals `ℝ` with `Real.arccos`, `Real.sin`, `Real.cos`
  and `Complex.arg` standing for `acos`, `sin`, `cos` and `atan2`;
* stateful code (`IisptScheduleMonitor`) becomes explicit state passing.
-/

namespace IISPT

/- ===========================================================================
   Small geometric types (exact-rational vectors used by iispt.cpp)
   =========================================================================== -/

/-- A 3-vector with exact rational components, modelling pbrt's
`Vector3f` / `Normal3f` wherever only ring arithmetic is performed. -/
structure Vec3 where
  x : ℚ
  y : ℚ
  z : ℚ
  deriving DecidableEq, Repr

/-- pbrt `Dot` on the rational vector model. -/
def dot (a b : Vec3) : ℚ := a.x * b.x + a.y * b.y + a.z * b.z

/-- Component-wise negation, modelling `Normal3f(-n.x, -n.y, -n.z)`. -/
def vneg (a : Vec3) : Vec3 := ⟨-a.x, -a.y, -a.z⟩

/-- A ray as produced by `Interaction::SpawnRay`: origin at the
interaction point, direction as given (the tiny origin offset pbrt applies
for self-intersection avoidance does not affect origin/direction identity
at this level of modelling). -/
structure RayQ where
  o : Vec3
  d : Vec3
  deriving DecidableEq, Repr

/- ===========================================================================
   C4 — WeightedInterpolator weight (src/Doc.md, "New weight")
   Weight = max(0, 1-D) + eps
   =========================================================================== -/

/-- The interpolation weight of src/Doc.md ("New weight"):
`Weight = max(0, 1-D) + eps`. -/
def weight (eps D : ℚ) : ℚ := max 0 (1 - D) + eps

/- ===========================================================================
   C2 — HemisphericCamera::getLightSampleNn raster-bounds fallback
   (src/src/cameras/hemispheric.cpp lines 44-60)
   =========================================================================== -/

/-- `HemisphericCamera::getLightSampleNn`, embedded from
src/src/cameras/hemispheric.cpp lines 44-60.  The camera-space direction
is first turned into a raster cell `(x, y)` through floating-point
`acos`/`atan2`; that transcendental pipeline is abstracted here as the
already-computed integer cell indices `x y : ℤ` (every direction yields
some such pair), while the bounds guard and the zero-spectrum fallback are
translated exactly: the film is consulted only when
`x >= 0 && x < N && y >= 0 && y < N`, and otherwise `Spectrum(0.0)` is
returned. `film` models `nn_film->get_camera_coord_jacobian(x, y)` as a
total lookup and `N` models `PbrtOptions.iisptHemiSize`. -/
def getLightSampleNn (N : ℤ) (film : ℤ → ℤ → ℚ) (x y : ℤ) : ℚ :=
  if 0 ≤ x ∧ x < N ∧ 0 ≤ y ∧ y < N then film x y else 0

/- ===========================================================================
   C10 — IISPTIntegrator::Li_direct and its specular callers
   (src/unnamed/part_001 lines 196-293 and 636-646)
   =========================================================================== -/

/-- `IISPTIntegrator::Li_direct` (src/unnamed/part_001 lines 636-646):
initializes `Spectrum L (0.f)` and returns it; every argument is ignored. -/
def Li_direct (_ray : RayQ) (_depth : ℕ) (_pixel : ℤ × ℤ) : ℚ := 0

/-- `IISPTIntegrator::SpecularReflect` (src/unnamed/part_001 lines
251-293), with the BSDF sample abstracted as its outputs: `f` (sampled
BSDF value), `pdf`, `wi` and the shading normal `ns`; `rd` is the spawned
differential ray.  When `pdf > 0 && !f.IsBlack() && AbsDot(wi, ns) != 0`
the returned spectrum is `f * Li_direct(rd, …, depth+1, pixel) *
AbsDot(wi, ns) / pdf`, else `Spectrum(0.f)`. -/
def SpecularReflect (f pdf : ℚ) (wi ns : Vec3) (rd : RayQ)
    (depth : ℕ) (pixel : ℤ × ℤ) : ℚ :=
  if pdf > 0 ∧ f ≠ 0 ∧ |dot wi ns| ≠ 0 then
    f * Li_direct rd (depth + 1) pixel * |dot wi ns| / pdf
  else 0

/-- `IISPTIntegrator::SpecularTransmit` (src/unnamed/part_001 lines
196-249), abstracted the same way: `L` starts at `Spectrum(0.f)` and is
overwritten with `f * Li_direct(rd, …, depth+1, pixel) * AbsDot(wi, ns) /
pdf` exactly when `pdf > 0 && !f.IsBlack() && AbsDot(wi, ns) != 0`. -/
def SpecularTransmit (f pdf : ℚ) (wi ns : Vec3) (rd : RayQ)
    (depth : ℕ) (pixel : ℤ × ℤ) : ℚ :=
  if pdf > 0 ∧ f ≠ 0 ∧ |dot wi ns| ≠ 0 then
    f * Li_direct rd (depth + 1) pixel * |dot wi ns| / pdf
  else 0

/- ===========================================================================
   C7 — render_normal_2 worker pass ordering
   (src/unnamed/part_001 lines 391-417)
   =========================================================================== -/

/-- The two passes an `IisptRenderRunner` can execute. -/
inductive RunnerPass where
  | runDirect
  | runIndirect
  deriving DecidableEq, Repr

/-- The pass order the worker lambda of
`IISPTIntegrator::render_normal_2` (src/unnamed/part_001 lines 409-415)
executes for thread index `i`:
`if (i % 2 == 0) { run_direct; run } else { run; run_direct }`. -/
def workerPasses (i : ℕ) : List RunnerPass :=
  if i % 2 = 0 then [RunnerPass.runDirect, RunnerPass.runIndirect]
  else [RunnerPass.runIndirect, RunnerPass.runDirect]

/-- The worker pool launched by `render_normal_2`: one worker per thread
index `i < noCpus`, each paired with the pass order its lambda runs. -/
def renderNormal2Workers (noCpus : ℕ) : List (ℕ × List RunnerPass) :=
  (List.range noCpus).map (fun i => (i, workerPasses i))

/- ===========================================================================
   C1 — IISPTEstimateDirect / IISPTSampleHemisphere
   (src/unnamed/part_001 lines 528-622)
   =========================================================================== -/

/-- `IISPTEstimateDirect` (src/unnamed/part_001 lines 528-596) for a
surface interaction.  `radiance hem_x hem_y` models
`auxCamera->get_light_sample_nn(hem_x, hem_y, &wi)` (the probe's predicted
radiance at that cell) and `response hem_x hem_y` models
`isect.bsdf->f(isect.wo, wi, bsdfFlags) * AbsDot(wi, isect.shading.n)`
for the direction `wi` of that cell (the BSDF value times the cosine
term).  The code sets the constant `Float lightPdf = 1.0 / 6.28;`, starts
from `Spectrum Ld(0.f)`, and accumulates `f * Li / lightPdf` exactly when
`lightPdf > 0 && !Li.IsBlack()` and `!f.IsBlack()` (the computed
`scatteringPdf` is never used). -/
def IISPTEstimateDirect (response radiance : ℕ → ℕ → ℚ)
    (hem_x hem_y : ℕ) : ℚ :=
  let lightPdf : ℚ := 1.0 / 6.28
  let li := radiance hem_x hem_y
  if lightPdf > 0 ∧ li ≠ 0 then
    let f := response hem_x hem_y
    if f ≠ 0 then (if li ≠ 0 then f * li / lightPdf else 0) else 0
  else 0

/-- `IISPTSampleHemisphere` (src/unnamed/part_001 lines 599-622): sums
`IISPTEstimateDirect` over every raster cell `(hemi_x, hemi_y)` with both
coordinates below `PbrtOptions.iisptHemiSize` (modelled by `N`) and
divides by `n_samples = iisptHemiSize * iisptHemiSize`. -/
def IISPTSampleHemisphere (response radiance : ℕ → ℕ → ℚ) (N : ℕ) : ℚ :=
  let L : ℚ := ∑ hx ∈ Finset.range N, ∑ hy ∈ Finset.range N,
    IISPTEstimateDirect response radiance hx hy
  let n_samples : ℚ := (N : ℚ) * (N : ℚ)
  L / n_samples

/-- Definition following the spec's words for C1 (the refinement target,
not the source): per-cell contribution `response * radiance / pdf` with
the per-cell PDF the constant `raster_cell_count⁻¹` over the hemisphere,
summed over the whole raster and divided by the raster cell count. -/
def specSampleHemisphere (response radiance : ℕ → ℕ → ℚ) (N : ℕ) : ℚ :=
  (∑ hx ∈ Finset.range N, ∑ hy ∈ Finset.range N,
    response hx hy * radiance hx hy / (((N : ℚ) * (N : ℚ))⁻¹)) /
  ((N : ℚ) * (N : ℚ))

/- ===========================================================================
   C6 — IISPTIntegrator::Li_reference hemisphere orientation
   (src/unnamed/part_001 lines 649-743)
   =========================================================================== -/

/-- The fields of the primary-ray intersection that
`Li_reference` reads to orient the probe: the hit point `p` and the
surface normal `n` (the code reads `isect.n`). -/
structure IsectGeom where
  p : Vec3
  n : Vec3
  deriving DecidableEq, Repr

/-- The normal-flip of `Li_reference` (src/unnamed/part_001 lines
663-667): `surfNormal = isect.n`, and if
`Dot(Vector3f(isect.n), Vector3f(ray.d)) > 0.0` it is replaced by
`Normal3f(-isect.n.x, -isect.n.y, -isect.n.z)`. -/
def liReferenceSurfNormal (n rayD : Vec3) : Vec3 :=
  if dot n rayD > 0 then vneg n else n

/-- The probe setup of `Li_reference` (src/unnamed/part_001 lines
654-684): if the scene intersection failed the function returns early
(no probe, modelled as `none`); otherwise
`auxRay = isect.SpawnRay(Vector3f(surfNormal))` — a ray from the
intersection point along the possibly-flipped normal — and the
hemispheric aux camera is created at `auxRay.o` pointing along
`auxRay.d`. -/
def liReferenceProbeRay (hit : Option IsectGeom) (rayD : Vec3) :
    Option RayQ :=
  match hit with
  | none => none
  | some isect => some ⟨isect.p, liReferenceSurfNormal isect.n rayD⟩

/- ===========================================================================
   C8 / C9 — IISPTIntegrator::render_reference
   (src/unnamed/part_001 lines 455-525)
   =========================================================================== -/

/-- One-based enumeration starting after index `i`: pairs each list
element with the value `ref_idx` holds when that element is processed
(the code increments `ref_idx` before the sharding test, so the first
visited pixel carries index `i + 1`). -/
def enumFromSucc {α : Type} : ℕ → List α → List (ℕ × α)
  | _, [] => []
  | i, a :: as => (i + 1, a) :: enumFromSucc (i + 1) as

/-- The pixels visited by the double loop of `render_reference`
(src/unnamed/part_001 lines 497-498): `px_y` ranges over the multiples of
`reference_tile_interval_y` below `sampleExtent.y` (outer loop), `px_x`
over the multiples of `reference_tile_interval_x` below `sampleExtent.x`
(inner loop); for step `iv ≥ 1` that is `iv * i` for
`i < ⌈extent / iv⌉ = (extent + iv - 1) / iv`.  Elements are `(px_x,
px_y)` in visit order. -/
def refVisitedPixels (extentX extentY ivX ivY : ℕ) : List (ℕ × ℕ) :=
  (List.range ((extentY + ivY - 1) / ivY)).flatMap (fun iy =>
    (List.range ((extentX + ivX - 1) / ivX)).map
      (fun ix => (ix * ivX, iy * ivY)))

/-- The sharding filter of `render_reference` (src/unnamed/part_001 lines
500-504): for each visited pixel, `ref_idx++;` then
`if ((ref_idx % reference_control_mod) != reference_control_match)
continue;` — otherwise the pixel is rendered.  Returns the rendered
pixels, each tagged with its `ref_idx` value. -/
def refPixelLoop (ctrlMod ctrlMatch : ℕ) :
    ℕ → List (ℕ × ℕ) → List (ℕ × (ℕ × ℕ))
  | _, [] => []
  | refIdx, p :: rest =>
    let idx := refIdx + 1
    if idx % ctrlMod ≠ ctrlMatch then refPixelLoop ctrlMod ctrlMatch idx rest
    else (idx, p) :: refPixelLoop ctrlMod ctrlMatch idx rest

/-- Outcome of `render_reference`: whether the degenerate-tile-interval
configuration error fired, and the list of rendered reference pixels. -/
structure RefRenderResult where
  configError : Bool
  rendered : List (ℕ × (ℕ × ℕ))
  deriving DecidableEq, Repr

/-- `IISPTIntegrator::render_reference` (src/unnamed/part_001 lines
455-525), reduced to its control flow over non-negative integer inputs:
`reference_tile_interval_x = sampleExtent.x / reference_tiles` and
likewise for y (C++ integer division); if either interval is zero the
error message is printed and the function returns before the pixel loop;
otherwise the loop visits the grid pixels and renders those passing the
sharding test.  `ctrlMod` models `IISPT_REFERENCE_CONTROL_MOD`
(default 1) and `ctrlMatch` models `IISPT_REFERENCE_CONTROL_MATCH`
(default 0). -/
def render_reference (extentX extentY referenceTiles ctrlMod ctrlMatch : ℕ) :
    RefRenderResult :=
  let reference_tile_interval_x := extentX / referenceTiles
  let reference_tile_interval_y := extentY / referenceTiles
  if reference_tile_interval_x = 0 ∨ reference_tile_interval_y = 0 then
    ⟨true, []⟩
  else
    ⟨false, refPixelLoop ctrlMod ctrlMatch 0
      (refVisitedPixels extentX extentY
        reference_tile_interval_x reference_tile_interval_y)⟩

/- ===========================================================================
   C5 — hemisphere raster direction/cell mappings
   (src/src/cameras/hemispheric.cpp lines 44-60, 63-78, 89-105)
   =========================================================================== -/

/-- A 3-vector over the exact reals, modelling `Vector3f` where
trigonometry is performed. -/
structure Vec3R where
  x : ℝ
  y : ℝ
  z : ℝ

/-- C `atan2(y, x)`: the angle of the point `(x, y)` in `(-π, π]`, with
`atan2(0, 0) = 0`, which is exactly `Complex.arg (x + y i)`. -/
noncomputable def atan2 (yv xv : ℝ) : ℝ := Complex.arg (xv + yv * Complex.I)

/-- C++ float-to-int conversion: truncation toward zero. -/
noncomputable def truncToInt (r : ℝ) : ℤ := if 0 ≤ r then ⌊r⌋ else -⌊-r⌋

/-- The cell-to-direction mapping of
`HemisphericCamera::get_light_sample_nn` (and of `getLightSample` and
`GenerateRay`, hemispheric.cpp lines 94-97): `theta = Pi * y /
fullResolution.y`, `phi = Pi * x / fullResolution.x` — the angles of the
cell CORNER, with `fullResolution = iisptHemiSize = N` — and direction
`(sin theta * cos phi, cos theta, sin theta * sin phi)` in camera space
(the `CameraToWorld` transform and its inverse used by the paired lookup
cancel and are dropped). -/
noncomputable def hemiCellToDir (N x y : ℤ) : Vec3R :=
  let theta : ℝ := Real.pi * y / N
  let phi : ℝ := Real.pi * x / N
  ⟨Real.sin theta * Real.cos phi, Real.cos theta,
    Real.sin theta * Real.sin phi⟩

/-- The direction-to-cell mapping of
`HemisphericCamera::getLightSampleNn` (hemispheric.cpp lines 48-51):
`theta = acos(w.y)`, `phi = atan2(w.z, w.x)`, then the integer
truncations `y = iisptHemiSize * theta / Pi`,
`x = iisptHemiSize * phi / Pi`; returned as `(x, y)`. -/
noncomputable def hemiDirToCell (N : ℤ) (w : Vec3R) : ℤ × ℤ :=
  let theta : ℝ := Real.arccos w.y
  let phi : ℝ := atan2 w.z w.x
  (truncToInt (N * phi / Real.pi), truncToInt (N * theta / Real.pi))

/-- Definition following the spec's words for C5 (the refinement target,
not the source): cell-to-direction evaluated at the cell CENTER,
`theta = Pi * (y + 1/2) / N`, `phi = Pi * (x + 1/2) / N`. -/
noncomputable def specCellToDirCenter (N x y : ℤ) : Vec3R :=
  let theta : ℝ := Real.pi * (y + 1/2) / N
  let phi : ℝ := Real.pi * (x + 1/2) / N
  ⟨Real.sin theta * Real.cos phi, Real.cos theta,
    Real.sin theta * Real.sin phi⟩

/- ===========================================================================
   C3 — IisptScheduleMonitor radius schedule
   (declaration: src/src/integrators/iisptschedulemonitor.h lines 23-70)
   =========================================================================== -/

/-- The observable state of an `IisptScheduleMonitor`
(src/src/integrators/iisptschedulemonitor.h): the current radius and the
samples-since-decay counter.  The `decays` field is observer
instrumentation counting how many times the radius has been multiplied by
the decay multiplier. -/
structure IisptScheduleState where
  current_radius : ℚ
  samplesCounter : ℕ
  decays : ℕ
  deriving DecidableEq, Repr

/-- Modelled from the spec: the member-function implementation file of
`IisptScheduleMonitor` is not under src/ — only the class declaration
(src/src/integrators/iisptschedulemonitor.h) is.  Per spec §4.1, the
radius accessor, executed as one critical section: (1) increments the
samples-since-decay counter; (2) if the counter reached
`update_interval`, multiplies the radius by the decay multiplier and
resets the counter to zero; (3) returns the
(possibly-just-updated) radius.  The mutex serializes concurrent calls,
so any multi-threaded execution is a sequence of these atomic steps. -/
def next_radius (update_interval : ℕ) (update_multiplier : ℚ)
    (s : IisptScheduleState) : ℚ × IisptScheduleState :=
  let c := s.samplesCounter + 1
  if c = update_interval then
    let r := s.current_radius * update_multiplier
    (r, ⟨r, 0, s.decays + 1⟩)
  else
    (s.current_radius, ⟨s.current_radius, c, s.decays⟩)

/-- The state after `n` serialized calls to `next_radius`, starting from
initial radius `r0`, counter 0, no decays. -/
def scheduleRun (ui : ℕ) (m r0 : ℚ) : ℕ → IisptScheduleState
  | 0 => ⟨r0, 0, 0⟩
  | n + 1 => (next_radius ui m (scheduleRun ui m r0 n)).2

end IISPT

/- ===========================================================================
   Theorems
   =========================================================================== -/

namespace IISPT

/-- C4: the WeightedInterpolator weight `max(0, 1-D) + eps` with `eps > 0`
satisfies `weight 0 = 1 + eps`, `weight D = eps` for all `D ≥ 1`,
`weight D > 0` for all `D`, and is monotonically non-increasing in `D`. -/
theorem interpolator_weight_properties (eps : ℚ) (heps : 0 < eps) :
    weight eps 0 = 1 + eps ∧
    (∀ D : ℚ, 1 ≤ D → weight eps D = eps) ∧
    (∀ D : ℚ, 0 < weight eps D) ∧
    (∀ D E : ℚ, D ≤ E → weight eps E ≤ weight eps D) := by
  refine ⟨?_, ?_, ?_, ?_⟩
  · simp [weight]
  · intro D hD
    have h1 : (1 : ℚ) - D ≤ 0 := by linarith
    simp [weight, max_eq_left h1]
  · intro D
    have h0 : (0 : ℚ) ≤ max 0 (1 - D) := le_max_left _ _
    unfold weight
    linarith
  · intro D E hDE
    have h1 : max 0 (1 - E) ≤ max 0 (1 - D) :=
      max_le_max le_rfl (by linarith)
    unfold weight
    linarith

/-- Witness for `interpolator_weight_properties` at `eps = 1/100`,
`D = 3/2`. -/
theorem interpolator_weight_properties_wit :
    weight (1/100) (3/2) = 1/100 :=
  (interpolator_weight_properties (1/100) (by norm_num)).2.1 (3/2) (by norm_num)

/-- C2: whenever the computed raster cell `(x, y)` lies outside
`[0, iisptHemiSize)` in either coordinate, `getLightSampleNn` returns the
zero spectrum (it is a total function: no error is raised). -/
theorem getLightSampleNn_out_of_bounds_zero
    (N : ℤ) (film : ℤ → ℤ → ℚ) (x y : ℤ)
    (h : ¬(0 ≤ x ∧ x < N ∧ 0 ≤ y ∧ y < N)) :
    getLightSampleNn N film x y = 0 := by
  simp [getLightSampleNn, h]

/-- Witness for `getLightSampleNn_out_of_bounds_zero`: size 2 raster with
a nowhere-zero film, cell `(5, 0)` out of bounds. -/
theorem getLightSampleNn_out_of_bounds_zero_wit :
    getLightSampleNn 2 (fun _ _ => 3) 5 0 = 0 :=
  getLightSampleNn_out_of_bounds_zero 2 (fun _ _ => 3) 5 0 (by decide)

/-- C10: `Li_direct` returns the zero spectrum for every input, and
consequently `SpecularReflect` and `SpecularTransmit` — which scale their
result by the `Li_direct` of the spawned ray — always return zero
radiance. -/
theorem liDirect_zero (f pdf : ℚ) (wi ns : Vec3) (rd : RayQ)
    (ray : RayQ) (depth : ℕ) (pixel : ℤ × ℤ) :
    Li_direct ray depth pixel = 0 ∧
    SpecularReflect f pdf wi ns rd depth pixel = 0 ∧
    SpecularTransmit f pdf wi ns rd depth pixel = 0 := by
  refine ⟨rfl, ?_, ?_⟩ <;>
    simp [SpecularReflect, SpecularTransmit, Li_direct]

/-- C7: in the worker pool launched by `render_normal_2`, every worker
with even thread index executes `run_direct` before `run`, every worker
with odd thread index executes `run` before `run_direct`, and adjacent
thread indices have opposite pass orders. -/
theorem renderNormal2_pass_order (noCpus i : ℕ) (h : i < noCpus) :
    (i, workerPasses i) ∈ renderNormal2Workers noCpus ∧
    (i % 2 = 0 →
      workerPasses i = [RunnerPass.runDirect, RunnerPass.runIndirect]) ∧
    (i % 2 = 1 →
      workerPasses i = [RunnerPass.runIndirect, RunnerPass.runDirect]) ∧
    workerPasses (i + 1) ≠ workerPasses i := by
  refine ⟨?_, ?_, ?_, ?_⟩
  · simp only [renderNormal2Workers, List.mem_map]
    exact ⟨i, List.mem_range.mpr h, rfl⟩
  · intro he; simp [workerPasses, he]
  · intro ho
    have he : ¬ i % 2 = 0 := by omega
    simp [workerPasses, he]
  · rcases Nat.even_or_odd i with he | ho
    · have h0 : i % 2 = 0 := Nat.even_iff.mp he
      have h1 : (i + 1) % 2 = 1 := by omega
      simp [workerPasses, h0, h1]
    · have h1 : i % 2 = 1 := Nat.odd_iff.mp ho
      have h0 : (i + 1) % 2 = 0 := by omega
      simp [workerPasses, h0, h1]

/-- Witness for `renderNormal2_pass_order` at `noCpus = 4`, `i = 2`. -/
theorem renderNormal2_pass_order_wit :
    workerPasses 2 = [RunnerPass.runDirect, RunnerPass.runIndirect] :=
  (renderNormal2_pass_order 4 2 (by decide)).2.1 (by decide)

/-- Arithmetic helper: a call that finds the counter one below the update
interval wraps the modulus and bumps the quotient. -/
theorem schedule_succ_div_mod_decay {ui n : ℕ} (hui : 0 < ui)
    (h : n % ui + 1 = ui) :
    (n + 1) % ui = 0 ∧ (n + 1) / ui = n / ui + 1 := by
  have hq := Nat.div_add_mod n ui
  have hn : n + 1 = ui * (n / ui + 1) := by
    calc n + 1 = (ui * (n / ui) + n % ui) + 1 := by rw [hq]
    _ = ui * (n / ui) + (n % ui + 1) := by ring
    _ = ui * (n / ui) + ui := by rw [h]
    _ = ui * (n / ui + 1) := by ring
  constructor
  · rw [hn]; exact Nat.mul_mod_right ui (n / ui + 1)
  · rw [hn]; exact Nat.mul_div_cancel_left _ hui

/-- Arithmetic helper: any other call advances the modulus by one and
keeps the quotient. -/
theorem schedule_succ_div_mod_keep {ui n : ℕ} (hui : 0 < ui)
    (h : ¬ n % ui + 1 = ui) :
    (n + 1) % ui = n % ui + 1 ∧ (n + 1) / ui = n / ui := by
  have hq := Nat.div_add_mod n ui
  have hlt : n % ui < ui := Nat.mod_lt n hui
  have hlt1 : n % ui + 1 < ui := by omega
  have hn : n + 1 = (n % ui + 1) + ui * (n / ui) := by
    calc n + 1 = (ui * (n / ui) + n % ui) + 1 := by rw [hq]
    _ = (n % ui + 1) + ui * (n / ui) := by ring
  constructor
  · rw [hn, Nat.add_mul_mod_self_left, Nat.mod_eq_of_lt hlt1]
  · rw [hn, Nat.add_mul_div_left _ _ hui, Nat.div_eq_of_lt hlt1,
      Nat.zero_add]

/-- State invariant of the schedule monitor: after `n` calls the counter
is `n % ui` and the number of decays is `n / ui`. -/
theorem scheduleRun_counter_decays (ui : ℕ) (m r0 : ℚ) (hui : 0 < ui) :
    ∀ n : ℕ, (scheduleRun ui m r0 n).samplesCounter = n % ui ∧
      (scheduleRun ui m r0 n).decays = n / ui := by
  intro n
  induction n with
  | zero => simp [scheduleRun]
  | succ n ih =>
    obtain ⟨hc, hd⟩ := ih
    by_cases h : n % ui + 1 = ui
    · obtain ⟨h1, h2⟩ := schedule_succ_div_mod_decay hui h
      simp [scheduleRun, next_radius, hc, hd, h, h1, h2]
    · obtain ⟨h1, h2⟩ := schedule_succ_div_mod_keep hui h
      simp [scheduleRun, next_radius, hc, hd, h, h1, h2]

/-- Radius invariant: after `n` calls the radius is the initial radius
times the decay multiplier raised to the number of decays. -/
theorem scheduleRun_radius_closed (ui : ℕ) (m r0 : ℚ) :
    ∀ n : ℕ, (scheduleRun ui m r0 n).current_radius =
      r0 * m ^ (scheduleRun ui m r0 n).decays := by
  intro n
  induction n with
  | zero => simp [scheduleRun]
  | succ n ih =>
    by_cases h : (scheduleRun ui m r0 n).samplesCounter + 1 = ui
    · simp only [scheduleRun, next_radius, h, if_pos]
      rw [ih, pow_succ, mul_assoc]
    · simp only [scheduleRun, next_radius, h, if_neg, ite_false]
      exact ih

/-- Per-cell closed form of `IISPTEstimateDirect`: the guards collapse and
every cell contributes `response * radiance / (1.0 / 6.28)`. -/
theorem IISPTEstimateDirect_closed_form
    (response radiance : ℕ → ℕ → ℚ) (hx hy : ℕ) :
    IISPTEstimateDirect response radiance hx hy =
      response hx hy * radiance hx hy / ((1.0 : ℚ) / 6.28) := by
  unfold IISPTEstimateDirect
  by_cases hl : radiance hx hy = 0
  · simp [hl]
  · by_cases hf : response hx hy = 0
    · simp [hl, hf]
    · have hp : (0 : ℚ) < 1.0 / 6.28 := by norm_num
      simp [hl, hf, hp]

/-- C1 counterexample: with a one-cell raster (`N = 1`) and unit response
and radiance everywhere, the code returns `6.28` (division by the
hard-coded `lightPdf = 1.0 / 6.28`) while the claimed estimator — PDF
equal to `raster_cell_count⁻¹` — would return `1`. -/
theorem sampleHemisphere_pdf_counterexample :
    IISPTSampleHemisphere (fun _ _ => 1) (fun _ _ => 1) 1 ≠
      specSampleHemisphere (fun _ _ => 1) (fun _ _ => 1) 1 := by
  norm_num [IISPTSampleHemisphere, specSampleHemisphere,
    IISPTEstimateDirect]

/-- C3: over any sequence of serialized calls to the radius accessor
(the mutex makes every multi-threaded schedule such a sequence), the
returned radius — which equals the post-call state radius in both
branches — is non-increasing, and the number of decays after `n` total
calls is exactly `n / update_interval` (floor division). -/
theorem scheduleMonitor_radius_decay (ui : ℕ) (m r0 : ℚ)
    (hui : 0 < ui) (hm0 : 0 ≤ m) (hm1 : m ≤ 1) (hr0 : 0 ≤ r0) :
    (∀ s : IisptScheduleState,
      (next_radius ui m s).1 = (next_radius ui m s).2.current_radius) ∧
    (∀ k l : ℕ, k ≤ l →
      (scheduleRun ui m r0 l).current_radius ≤
        (scheduleRun ui m r0 k).current_radius) ∧
    (∀ n : ℕ, (scheduleRun ui m r0 n).decays = n / ui) := by
  refine ⟨?_, ?_, fun n => (scheduleRun_counter_decays ui m r0 hui n).2⟩
  · intro s
    unfold next_radius
    by_cases h : s.samplesCounter + 1 = ui <;> simp [h]
  · intro k l hkl
    rw [scheduleRun_radius_closed ui m r0 k,
      scheduleRun_radius_closed ui m r0 l,
      (scheduleRun_counter_decays ui m r0 hui k).2,
      (scheduleRun_counter_decays ui m r0 hui l).2]
    exact mul_le_mul_of_nonneg_left
      (pow_le_pow_of_le_one hm0 hm1 (Nat.div_le_div_right hkl)) hr0

/-- Witness for `scheduleMonitor_radius_decay` with update interval 2,
multiplier 1/2, initial radius 4, comparing calls 1 and 3 and counting
decays after 5 calls. -/
theorem scheduleMonitor_radius_decay_wit :
    (scheduleRun 2 (1/2) 4 3).current_radius ≤
      (scheduleRun 2 (1/2) 4 1).current_radius ∧
    (scheduleRun 2 (1/2) 4 5).decays = 5 / 2 :=
  ⟨(scheduleMonitor_radius_decay 2 (1/2) 4 (by norm_num) (by norm_num)
      (by norm_num) (by norm_num)).2.1 1 3 (by norm_num),
   (scheduleMonitor_radius_decay 2 (1/2) 4 (by norm_num) (by norm_num)
      (by norm_num) (by norm_num)).2.2 5⟩

/-- C6: for every primary-ray intersection, the probe ray of
`Li_reference` starts at the intersection point and points along the
surface normal, which is negated exactly under the code's test — when the
dot product of the surface normal with the incoming ray direction is
positive — and kept otherwise. -/
theorem liReference_probe_normal_flip (isect : IsectGeom) (rayD : Vec3) :
    (∃ r : RayQ, liReferenceProbeRay (some isect) rayD = some r ∧
      r.o = isect.p) ∧
    (dot isect.n rayD > 0 →
      liReferenceProbeRay (some isect) rayD = some ⟨isect.p, vneg isect.n⟩) ∧
    (dot isect.n rayD ≤ 0 →
      liReferenceProbeRay (some isect) rayD = some ⟨isect.p, isect.n⟩) := by
  refine ⟨⟨⟨isect.p, liReferenceSurfNormal isect.n rayD⟩, rfl, rfl⟩, ?_, ?_⟩
  · intro hpos
    simp [liReferenceProbeRay, liReferenceSurfNormal, hpos]
  · intro hnonpos
    have h : ¬ dot isect.n rayD > 0 := not_lt.mpr hnonpos
    simp [liReferenceProbeRay, liReferenceSurfNormal, h]

/-- Witness for `liReference_probe_normal_flip`: a hit at the origin with
normal `(0,0,1)`; against an incoming ray direction `(0,0,1)` (dot 1 > 0)
the normal is flipped, against `(0,0,-1)` (dot -1 ≤ 0) it is kept. -/
theorem liReference_probe_normal_flip_wit :
    liReferenceProbeRay (some ⟨⟨0,0,0⟩, ⟨0,0,1⟩⟩) ⟨0,0,1⟩ =
      some ⟨⟨0,0,0⟩, vneg ⟨0,0,1⟩⟩ ∧
    liReferenceProbeRay (some ⟨⟨0,0,0⟩, ⟨0,0,1⟩⟩) ⟨0,0,-1⟩ =
      some ⟨⟨0,0,0⟩, ⟨0,0,1⟩⟩ :=
  ⟨(liReference_probe_normal_flip ⟨⟨0,0,0⟩, ⟨0,0,1⟩⟩ ⟨0,0,1⟩).2.1
      (by norm_num [dot]),
   (liReference_probe_normal_flip ⟨⟨0,0,0⟩, ⟨0,0,1⟩⟩ ⟨0,0,-1⟩).2.2
      (by norm_num [dot])⟩

/-- C8: if the computed tile interval is zero on either axis,
`render_reference` reports the configuration error and returns before any
reference pixel is rendered. -/
theorem renderReference_degenerate_interval
    (extentX extentY referenceTiles ctrlMod ctrlMatch : ℕ)
    (h : extentX / referenceTiles = 0 ∨ extentY / referenceTiles = 0) :
    (render_reference extentX extentY referenceTiles
        ctrlMod ctrlMatch).configError = true ∧
    (render_reference extentX extentY referenceTiles
        ctrlMod ctrlMatch).rendered = [] := by
  unfold render_reference
  simp [h]

/-- Witness for `renderReference_degenerate_interval`: a 3x100 extent
with 5 reference tiles makes the x interval zero. -/
theorem renderReference_degenerate_interval_wit :
    (render_reference 3 100 5 1 0).configError = true ∧
    (render_reference 3 100 5 1 0).rendered = [] :=
  renderReference_degenerate_interval 3 100 5 1 0 (by decide)

/-- The sharding loop is the one-based-index filter: a visited pixel is
kept exactly when its `ref_idx` value satisfies
`ref_idx % ctrlMod = ctrlMatch`. -/
theorem refPixelLoop_eq_filter (ctrlMod ctrlMatch : ℕ) :
    ∀ (i : ℕ) (l : List (ℕ × ℕ)),
      refPixelLoop ctrlMod ctrlMatch i l =
        (enumFromSucc i l).filter (fun e => e.1 % ctrlMod == ctrlMatch) := by
  intro i l
  induction l generalizing i with
  | nil => simp [refPixelLoop, enumFromSucc]
  | cons p rest ih =>
    simp only [refPixelLoop, enumFromSucc, List.filter_cons]
    by_cases h : (i + 1) % ctrlMod = ctrlMatch <;> simp [h, ih]

/-- C9: in reference mode with a non-degenerate tile interval, a visited
pixel is rendered if and only if its sequential index (the value of
`ref_idx` when it is examined: 1 for the first visited pixel, 2 for the
second, …) is congruent to `ctrlMatch` modulo `ctrlMod`; with the
default values `ctrlMod = 1`, `ctrlMatch = 0`, every visited pixel is
rendered. -/
theorem renderReference_sharding
    (extentX extentY referenceTiles ctrlMod ctrlMatch : ℕ)
    (h : ¬(extentX / referenceTiles = 0 ∨ extentY / referenceTiles = 0)) :
    (∀ k p, (k, p) ∈ (render_reference extentX extentY referenceTiles
        ctrlMod ctrlMatch).rendered ↔
      ((k, p) ∈ enumFromSucc 0 (refVisitedPixels extentX extentY
          (extentX / referenceTiles) (extentY / referenceTiles)) ∧
        k % ctrlMod = ctrlMatch)) ∧
    (render_reference extentX extentY referenceTiles 1 0).rendered =
      enumFromSucc 0 (refVisitedPixels extentX extentY
        (extentX / referenceTiles) (extentY / referenceTiles)) := by
  constructor
  · intro k p
    unfold render_reference
    simp [h, refPixelLoop_eq_filter, List.mem_filter]
  · unfold render_reference
    simp only [h, ite_false, if_neg]
    rw [refPixelLoop_eq_filter]
    apply List.filter_eq_self.mpr
    intro e _
    simp [Nat.mod_one]

/-- Witness for `renderReference_sharding`: a 4x4 extent with 2 reference
tiles (interval 2), sharding modulus 2 and match 1; the first visited
pixel `(0, 0)` has sequential index 1 and is rendered. -/
theorem renderReference_sharding_wit :
    (1, ((0 : ℕ), (0 : ℕ))) ∈
      (render_reference 4 4 2 2 1).rendered ↔
    ((1, ((0 : ℕ), (0 : ℕ))) ∈
        enumFromSucc 0 (refVisitedPixels 4 4 (4 / 2) (4 / 2)) ∧
      1 % 2 = 1) :=
  (renderReference_sharding 4 4 2 2 1 (by decide)).1 1 (0, 0)

/-- Truncation toward zero of a non-negative integer cast is the
identity. -/
theorem truncToInt_intCast (k : ℤ) (hk : 0 ≤ k) : truncToInt (k : ℝ) = k := by
  have h : (0 : ℝ) ≤ (k : ℝ) := by exact_mod_cast hk
  simp [truncToInt, h]

/-- C5 counterexample, at raster size `N = 2`.  First conjunct: the
round trip fails at the in-bounds pole-row cell `(x, y) = (1, 0)` —
`hemiCellToDir` collapses the whole row `y = 0` to the single direction
`(0, 1, 0)` (since `sin 0 = 0`), and `hemiDirToCell` sends it back to
`(0, 0)`, not `(1, 0)`.  Second conjunct: the code's cell-to-direction
mapping evaluates the cell corner, not the cell center claimed by the
spec — at cell `(0, 1)` the two differ. -/
theorem hemiRaster_roundtrip_counterexample :
    hemiDirToCell 2 (hemiCellToDir 2 1 0) ≠ ((1 : ℤ), (0 : ℤ)) ∧
    hemiCellToDir 2 0 1 ≠ specCellToDirCenter 2 0 1 := by
  constructor
  · have hdir : hemiCellToDir 2 1 0 = ⟨0, 1, 0⟩ := by
      simp [hemiCellToDir]
    rw [hdir]
    have harg : atan2 0 0 = 0 := by
      simp [atan2]
    have hcell : hemiDirToCell 2 ⟨0, 1, 0⟩ = ((0 : ℤ), (0 : ℤ)) := by
      simp [hemiDirToCell, harg, Real.arccos_one, truncToInt]
    rw [hcell]
    decide
  · intro h
    have hy := congrArg Vec3R.y h
    have h1 : Real.pi * ((1 : ℤ) : ℝ) / ((2 : ℤ) : ℝ) = Real.pi / 2 := by
      norm_num
    have h2 : Real.pi * (((1 : ℤ) : ℝ) + 1/2) / ((2 : ℤ) : ℝ) =
        Real.pi * (3/4) := by
      push_cast
      ring
    simp only [hemiCellToDir, specCellToDirCenter] at hy
    rw [h1, h2] at hy
    rw [Real.cos_pi_div_two] at hy
    have hneg : Real.cos (Real.pi * (3/4)) < 0 := by
      apply Real.cos_neg_of_pi_div_two_lt_of_lt
      · linarith [Real.pi_pos]
      · linarith [Real.pi_pos]
    rw [← hy] at hneg
    exact lt_irrefl 0 hneg

/-- C5 amended: direction-to-cell truncates `theta`/`phi` to integer
row/column indices, cell-to-direction evaluates the direction at the
cell CORNER (`theta = Pi * y / N`, `phi = Pi * x / N`), and the two
mappings are mutually inverse for every in-bounds cell off the pole row,
i.e. with `1 ≤ y` (at `y = 0` the whole row collapses to the direction
`(0, 1, 0)` and only column 0 round-trips). -/
theorem hemiRaster_roundtrip_offpole (N x y : ℤ)
    (hN : 0 < N) (hx0 : 0 ≤ x) (hx : x < N) (hy1 : 1 ≤ y) (hy : y < N) :
    hemiDirToCell N (hemiCellToDir N x y) = (x, y) := by
  have hNR : (0 : ℝ) < (N : ℝ) := by exact_mod_cast hN
  have hpi := Real.pi_pos
  have hyR : (1 : ℝ) ≤ (y : ℝ) := by exact_mod_cast hy1
  have hyltR : (y : ℝ) < (N : ℝ) := by exact_mod_cast hy
  have hxR : (0 : ℝ) ≤ (x : ℝ) := by exact_mod_cast hx0
  have hxltR : (x : ℝ) < (N : ℝ) := by exact_mod_cast hx
  have hθpos : 0 < Real.pi * y / N := div_pos (mul_pos hpi (by linarith)) hNR
  have hθlt : Real.pi * y / N < Real.pi := by
    rw [div_lt_iff₀ hNR]
    exact mul_lt_mul_of_pos_left hyltR hpi
  have hφ0 : 0 ≤ Real.pi * x / N := div_nonneg (mul_nonneg hpi.le hxR) hNR.le
  have hφlt : Real.pi * x / N < Real.pi := by
    rw [div_lt_iff₀ hNR]
    exact mul_lt_mul_of_pos_left hxltR hpi
  have hsin : 0 < Real.sin (Real.pi * y / N) :=
    Real.sin_pos_of_pos_of_lt_pi hθpos hθlt
  have harccos : Real.arccos (Real.cos (Real.pi * y / N)) = Real.pi * y / N :=
    Real.arccos_cos hθpos.le hθlt.le
  have harg : atan2 (Real.sin (Real.pi * y / N) * Real.sin (Real.pi * x / N))
      (Real.sin (Real.pi * y / N) * Real.cos (Real.pi * x / N)) =
      Real.pi * x / N := by
    unfold atan2
    have hc : ((Real.sin (Real.pi * y / N) * Real.cos (Real.pi * x / N) : ℝ) +
        (Real.sin (Real.pi * y / N) * Real.sin (Real.pi * x / N) : ℝ) *
          Complex.I) =
        (Real.sin (Real.pi * y / N) : ℂ) *
          (Real.cos (Real.pi * x / N) + Real.sin (Real.pi * x / N) *
            Complex.I) := by
      push_cast
      ring
    rw [hc, Complex.arg_real_mul _ hsin, Complex.ofReal_cos,
      Complex.ofReal_sin]
    exact Complex.arg_cos_add_sin_mul_I ⟨by linarith, hφlt.le⟩
  have hNy : (N : ℝ) * (Real.pi * y / N) / Real.pi = (y : ℝ) := by
    field_simp
  have hNx : (N : ℝ) * (Real.pi * x / N) / Real.pi = (x : ℝ) := by
    field_simp
  simp only [hemiDirToCell, hemiCellToDir]
  rw [harg, harccos, hNx, hNy, truncToInt_intCast x hx0,
    truncToInt_intCast y (by omega)]

/-- Witness for `hemiRaster_roundtrip_offpole`: raster size 2, cell
`(1, 1)`. -/
theorem hemiRaster_roundtrip_offpole_wit :
    hemiDirToCell 2 (hemiCellToDir 2 1 1) = (1, 1) :=
  hemiRaster_roundtrip_offpole 2 1 1 (by norm_num) (by norm_num)
    (by norm_num) (by norm_num) (by norm_num)

/-- C1 amended: for every surface interaction,
`IISPTSampleHemisphere` returns the sum over all raster cells of
`response * radiance / pdf` — where the PDF is the hard-coded constant
`1.0 / 6.28` (an approximation of the uniform hemisphere density
`1/(2π)`, independent of the raster cell count) and `response` is the
BSDF value times the cosine term — divided by the raster cell count. -/
theorem sampleHemisphere_pdf_constant
    (response radiance : ℕ → ℕ → ℚ) (N : ℕ) :
    IISPTSampleHemisphere response radiance N =
      (∑ hx ∈ Finset.range N, ∑ hy ∈ Finset.range N,
        response hx hy * radiance hx hy / ((1.0 : ℚ) / 6.28)) /
      ((N : ℚ) * (N : ℚ)) := by
  unfold IISPTSampleHemisphere
  dsimp only
  congr 1
  exact Finset.sum_congr rfl fun hx _ =>
    Finset.sum_congr rfl fun hy _ =>
      IISPTEstimateDirect_closed_form response radiance hx hy

end IISPT
